import Mathlib

/-!
Shallow embedding of `src/nodes/interface.py` of the ardrone-autopilot
repository: the `Messages` aggregator (named map + anonymous timed queue),
the `name::message` parsing of the `/ui/message` topic, the keyboard
dispatch table, the single-slot frame hand-off and the redraw surface
selection, together with proofs of the specification claims about them.

Conventions used by the embedding:
* Python strings become `String` (or `List Char` where character-level
  reasoning is needed); `rospy.get_time()` timestamps (seconds) become `Nat`.
* The Python dict `messages_named` becomes an insertion-ordered association
  list with overwrite-on-insert (`dictInsert`/`dictGet`); dict values are
  `Option String` because `None` is a possible message value
  (`controller.battery` may be `None`).
* The deque `messages_queue` becomes a list whose head is the deque front;
  `append` adds at the tail, `popleft` drops the head.
* Qt painting is modelled by returning the list of `drawText` commands
  `(x, y, text)`; x-coordinates are `Int` because the right-aligned queue
  column subtracts `column_width` and may go negative, y-coordinates are
  `Nat`.  The float anchors `int(width * .05)`, `int(height * .05)` and
  `int(height * .9)` are embedded as the exact integer expressions
  `width * 5 / 100`, `height * 5 / 100` and `height * 9 / 10`.
-/

namespace ArdroneUI

/-- Lookup in the Python-dict model: first (unique) binding of the key. -/
def dictGet (k : String) : List (String × Option String) → Option (Option String)
  | [] => none
  | (k0, v0) :: rest => if k0 = k then some v0 else dictGet k rest

/-- `d[k] = v` on the Python-dict model: overwrite in place, else append. -/
def dictInsert (k : String) (v : Option String) :
    List (String × Option String) → List (String × Option String)
  | [] => [(k, v)]
  | (k0, v0) :: rest =>
    if k0 = k then (k, v) :: rest else (k0, v0) :: dictInsert k v rest

/-- One entry of the `message_structure` layout: `None`, a single name, or a
list of names (the normalisation `None -> []`, non-list -> one-element list
performed inside `Messages.render` is `entryNames`). -/
inductive Entry
  | blank
  | single (name : String)
  | group (names : List String)
deriving DecidableEq

/-- The per-entry normalisation done at the top of the render loop. -/
def entryNames : Entry → List String
  | .blank => []
  | .single n => [n]
  | .group l => l

/-- State of the `Messages` aggregator object (`interface.py`, class
`Messages`): layout structure, named map, anonymous queue and the configured
`message_display_time` (milliseconds). -/
structure Messages where
  message_structure : List Entry
  messages_named : List (String × Option String)
  messages_queue : List (Option String × Nat)
  message_display_time : Nat
deriving DecidableEq

/-- `Messages.messages_put`: each `(message, name)` pair either appends
`(message, now)` to the anonymous queue (`name is None`) or overwrites the
named slot. -/
def messages_put (msgs : List (Option String × Option String)) (now : Nat)
    (s : Messages) : Messages :=
  msgs.foldl
    (fun st p =>
      match p.2 with
      | none => { st with messages_queue := st.messages_queue ++ [(p.1, now)] }
      | some name => { st with messages_named := dictInsert name p.1 st.messages_named })
    s

/-- `Messages.message_put`: singleton wrapper around `messages_put`. -/
def message_put (message : Option String) (name : Option String) (now : Nat)
    (s : Messages) : Messages :=
  messages_put [(message, name)] now s

/-- `Messages.messages_flush`: the body only binds the local variable
`messages` to an empty dict and never touches the object state. -/
def messages_flush (s : Messages) : Messages :=
  let messages : List (String × Option String) := []
  s

/-- The `while` loop of `Messages.clean_queue`: pop from the front while the
front entry satisfies `now - t > ttl`. -/
def clean_queue_loop (ttl now : Nat) :
    List (Option String × Nat) → List (Option String × Nat)
  | [] => []
  | (m, t) :: rest =>
    if ttl < now - t then clean_queue_loop ttl now rest else (m, t) :: rest

/-- `Messages.clean_queue`: prune the anonymous queue; the threshold is
`message_display_time / 1000` (milliseconds to seconds, Python 2 integer
division for the default integer parameter). -/
def clean_queue (now : Nat) (s : Messages) : Messages :=
  { s with
    messages_queue :=
      clean_queue_loop (s.message_display_time / 1000) now s.messages_queue }

/-- Text drawn for a named slot: `'%s: %s' % (name, value)` where the value
falls back to `'-'` when the slot is absent or holds `None`. -/
def renderLine (named : List (String × Option String)) (name : String) : String :=
  match dictGet name named with
  | none => name ++ ": " ++ "-"
  | some none => name ++ ": " ++ "-"
  | some (some v) => name ++ ": " ++ v

/-- The fixed column width used by `Messages.render`. -/
def column_width : Int := 250

/-- The inner loop over one structure entry: draw each name's line at the
cursor, advancing y by the fixed row height 15 per line.  Returns the final
y together with the emitted draw commands. -/
def drawNames (named : List (String × Option String)) (x : Int) :
    Nat → List String → Nat × List (Int × Nat × String)
  | y, [] => (y, [])
  | y, n :: rest =>
    let r := drawNames named x (y + 15) rest
    (r.1, (x, y, renderLine named n) :: r.2)

/-- One structure entry of the named-message walk: draw the lines, add the
group spacing 5, then apply the column-wrap rule
(`if y > int(height * .9): y = int(height * .05); x += column_width`). -/
def renderEntry (named : List (String × Option String)) (height : Nat)
    (e : Entry) (p : Int × Nat) : (Int × Nat) × List (Int × Nat × String) :=
  let r := drawNames named p.1 p.2 (entryNames e)
  let y2 := r.1 + 5
  if height * 9 / 10 < y2 then ((p.1 + column_width, height * 5 / 100), r.2)
  else ((p.1, y2), r.2)

/-- The walk over the whole `message_structure`. -/
def renderStructure (named : List (String × Option String)) (height : Nat) :
    List Entry → Int × Nat → (Int × Nat) × List (Int × Nat × String)
  | [], p => (p, [])
  | e :: rest, p =>
    let r := renderEntry named height e p
    let r2 := renderStructure named height rest r.1
    (r2.1, r.2 ++ r2.2)

/-- The right-aligned anonymous-queue walk: same row height and wrap rule,
but the horizontal cursor moves backward by `column_width` on wrap. -/
def drawQueueLoop (height : Nat) :
    Int × Nat → List (Option String × Nat) → List (Int × Nat × String)
  | _, [] => []
  | p, (m, _t) :: rest =>
    let y2 := p.2 + 15
    let p2 : Int × Nat :=
      if height * 9 / 10 < y2 then (p.1 - column_width, height * 5 / 100)
      else (p.1, y2)
    (p.1, p.2, m.getD "") :: drawQueueLoop height p2 rest

/-- `Messages.render`: it first calls `self.clean_queue()` (a state
mutation), then walks the structure from the `(5% width, 5% height)` anchor
and the queue from the `(width - column_width, 5% height)` anchor.  Returns
the state after the call together with the emitted draw commands. -/
def render (now : Nat) (width height : Nat) (s : Messages) :
    Messages × List (Int × Nat × String) :=
  let s2 := clean_queue now s
  let x0 : Int := (width * 5 / 100 : Nat)
  let y0 : Nat := height * 5 / 100
  let named := renderStructure s2.messages_named height s2.message_structure (x0, y0)
  let queued := drawQueueLoop height ((width : Int) - column_width, y0) s2.messages_queue
  (s2, named.2 ++ queued)

/-- The character class `[a-zA-Z0-9_-]` of the name group of
`messages_named_template`. -/
def isNameChar (c : Char) : Bool :=
  c.isAlpha || c.isDigit || c == '_' || c == '-'

/-- Semantics of `re.match` with
`((?P<name>[a-zA-Z0-9_-]+)::)?(?P<message>.*)`: `.` does not cross a
newline, so the match works on the part of the input before the first
`'\n'`; a nonempty maximal leading run of name characters immediately
followed by `"::"` yields that run as the name and the remainder of the
line as the message, anything else leaves the name group empty and the
whole line as the message.  (Greedy matching makes the maximal-run reading
exact: a shorter run is followed by a name character, never by `':'`.) -/
def matchLine (l : List Char) : Option (List Char) × List Char :=
  let line := l.takeWhile (fun c => c != '\n')
  let name := line.takeWhile isNameChar
  let rest := line.dropWhile isNameChar
  if name = [] then (none, line)
  else if rest.take 2 = [':', ':'] then (some name, rest.drop 2)
  else (none, line)

/-- `UInode.on_ui_request`: match the topic string against the template and
feed `message_put(**match.groupdict())`. -/
def on_ui_request (data : List Char) (now : Nat) (s : Messages) : Messages :=
  let r := matchLine data
  message_put (some (String.mk r.2)) (r.1.map String.mk) now s

/-- The Qt key identifiers appearing in `UInode.gen_keymap`, plus a stand-in
for any other key code. -/
inductive Key
  | key_R | key_T | key_L | key_H | key_A | key_D | key_W | key_S | key_Q | key_E
  | key_BracketRight | key_BracketLeft | key_Y
  | other (code : Nat)
deriving DecidableEq

/-- One observable effect on the external controller (or the `/apctrl`
topic).  `send_vel` records exactly the keyword arguments passed at the
call site; axes not mentioned there are `none`. -/
inductive ControllerCall
  | reset
  | takeoff
  | land
  | hover
  | send_vel (x y z yaw : Option Int)
  | ap_publish
deriving DecidableEq

/-- `UInode.gen_keymap`: each mapped key's lambda, as the list of controller
calls it performs given the axis value `ax`.  The `Key_Y` entry publishes to
the autopilot topic only when `ax != 0`. -/
def keymap : Key → Option (Int → List ControllerCall)
  | .key_R => some (fun _ax => [.reset])
  | .key_T => some (fun _ax => [.takeoff])
  | .key_L => some (fun _ax => [.land])
  | .key_H => some (fun _ax => [.hover])
  | .key_A => some (fun ax => [.send_vel none (some ax) none none])
  | .key_D => some (fun ax => [.send_vel none (some (-ax)) none none])
  | .key_W => some (fun ax => [.send_vel (some ax) none none none])
  | .key_S => some (fun ax => [.send_vel (some (-ax)) none none none])
  | .key_Q => some (fun ax => [.send_vel none none none (some ax)])
  | .key_E => some (fun ax => [.send_vel none none none (some (-ax))])
  | .key_BracketRight => some (fun ax => [.send_vel none none (some ax) none])
  | .key_BracketLeft => some (fun ax => [.send_vel none none (some (-ax)) none])
  | .key_Y => some (fun ax => if ax != 0 then [.ap_publish] else [])
  | .other _ => none

/-- `UInode.keyPressEvent`: auto-repeat events (or a missing controller)
produce nothing; otherwise a mapped key's action runs with axis value 1. -/
def keyPressEvent (key : Key) (isAutoRepeat : Bool) (controllerIsNone : Bool) :
    List ControllerCall :=
  if isAutoRepeat || controllerIsNone then []
  else
    match keymap key with
    | some f => f 1
    | none => []

/-- `UInode.keyReleaseEvent`: same filtering, axis value 0. -/
def keyReleaseEvent (key : Key) (isAutoRepeat : Bool) (controllerIsNone : Bool) :
    List ControllerCall :=
  if isAutoRepeat || controllerIsNone then []
  else
    match keymap key with
    | some f => f 0
    | none => []

/-- A raw `sensor_msgs/Image` as received by `on_video_update`. -/
structure RosImage where
  data : List Nat
  width : Nat
  height : Nat
deriving DecidableEq

/-- The `QImage` built from a raw frame. -/
structure QImageModel where
  data : List Nat
  width : Nat
  height : Nat
deriving DecidableEq

/-- `QtGui.QImage.rgbSwapped` on flat RGB888 bytes: swap the first and third
byte of every pixel. -/
def rgbSwapped : List Nat → List Nat
  | r :: g :: b :: rest => b :: g :: r :: rgbSwapped rest
  | l => l

/-- Construction of the frame stored by `on_video_update`, including the
optional red/blue swap. -/
def mkQImage (swap_red_blue : Bool) (d : RosImage) : QImageModel :=
  let image : QImageModel := { data := d.data, width := d.width, height := d.height }
  if swap_red_blue then { image with data := rgbSwapped image.data } else image

/-- `UInode.on_video_update`'s effect on the single frame slot `self.image`:
unconditional overwrite with the newly built image. -/
def on_video_update (swap_red_blue : Bool) (d : RosImage)
    (_slot : Option QImageModel) : Option QImageModel :=
  some (mkQImage swap_red_blue d)

/-- A sequence of frame publications into the slot. -/
def publishAll (swap_red_blue : Bool) (frames : List RosImage)
    (slot : Option QImageModel) : Option QImageModel :=
  frames.foldl (fun sl f => on_video_update swap_red_blue f sl) slot

/-- The consumer read of the slot performed by `on_redraw`: it returns the
current content and leaves the slot unchanged. -/
def takeLatest (slot : Option QImageModel) :
    Option QImageModel × Option QImageModel :=
  (slot, slot)

/-- What `on_redraw` renders onto: the latest real frame, or the fixed
placeholder pixmap `QPixmap(640, 360)` filled with `QColor(50, 50, 50)`. -/
inductive Surface
  | fromFrame (image : QImageModel)
  | placeholder (width height r g b : Nat)
deriving DecidableEq

/-- The surface selection at the top of `UInode.on_redraw`:
`if self.controller.is_online and self.image is not None:` use the frame,
else the placeholder. -/
def on_redraw_surface (is_online : Bool) (slot : Option QImageModel) : Surface :=
  match is_online, slot with
  | true, some image => .fromFrame image
  | true, none => .placeholder 640 360 50 50 50
  | false, _ => .placeholder 640 360 50 50 50

/-- The operations that touch the aggregator state over the process
lifetime. -/
inductive AggregatorOp
  | putAll (msgs : List (Option String × Option String)) (now : Nat)
  | putOne (message name : Option String) (now : Nat)
  | flush
  | clean (now : Nat)
  | draw (now width height : Nat)

/-- Interpretation of one aggregator operation. -/
def applyOp : AggregatorOp → Messages → Messages
  | .putAll msgs now, s => messages_put msgs now s
  | .putOne m n now, s => message_put m n now s
  | .flush, s => messages_flush s
  | .clean now, s => clean_queue now s
  | .draw now w h, s => (render now w h s).1

/-- Interpretation of a sequence of aggregator operations. -/
def applyOps (ops : List AggregatorOp) (s : Messages) : Messages :=
  ops.foldl (fun st op => applyOp op st) s

/-- The value carried by the most recent put for name `n` in a
chronologically ordered list of `(message, name)` pairs, if any. -/
def lastPutValue (n : String) :
    List (Option String × Option String) → Option (Option String)
  | [] => none
  | p :: rest =>
    match lastPutValue n rest with
    | some v => some v
    | none => if p.2 = some n then some p.1 else none

/-- A chronological sequence of `messages_put` batches (a `message_put` is a
singleton batch), applied in order. -/
def putBatches (batches : List (List (Option String × Option String) × Nat))
    (s : Messages) : Messages :=
  batches.foldl (fun st b => messages_put b.1 b.2 st) s

/-- The flattened chronological pair sequence of a batch sequence. -/
def flattenBatches
    (batches : List (List (Option String × Option String) × Nat)) :
    List (Option String × Option String) :=
  batches.foldr (fun b acc => b.1 ++ acc) []

/-- The dict-level effect of one `messages_put` batch. -/
def namedFold (msgs : List (Option String × Option String))
    (d : List (String × Option String)) : List (String × Option String) :=
  msgs.foldl
    (fun d0 p =>
      match p.2 with
      | none => d0
      | some name => dictInsert name p.1 d0)
    d

/-- The source's `grid` layout configuration. -/
def grid : List Entry :=
  [.single "drone.status", .blank, .single "drone.battery", .blank,
   .group ["tgt.x", "tgt.y", "tgt.z"]]

/-- The layout `["a", None, ["b", "c"]]` of the compositor-layout property. -/
def abGrid : List Entry := [.single "a", .blank, .group ["b", "c"]]

theorem dictGet_insert_self (k : String) (v : Option String)
    (d : List (String × Option String)) :
    dictGet k (dictInsert k v d) = some v := by
  induction d with
  | nil => simp [dictGet, dictInsert]
  | cons hd tl ih =>
    obtain ⟨k0, v0⟩ := hd
    by_cases h : k0 = k
    · simp [dictGet, dictInsert, h]
    · simp [dictGet, dictInsert, h, ih]

theorem dictGet_insert_ne (k0 k : String) (v : Option String)
    (d : List (String × Option String)) (h : k0 ≠ k) :
    dictGet k (dictInsert k0 v d) = dictGet k d := by
  induction d with
  | nil => simp [dictGet, dictInsert, h]
  | cons hd tl ih =>
    obtain ⟨k1, v1⟩ := hd
    by_cases h1 : k1 = k0
    · simp [dictGet, dictInsert, h1, h]
    · by_cases h2 : k1 = k
      · subst h2
        simp [dictGet, dictInsert, h1, Ne.symm h]
      · simp [dictGet, dictInsert, h1, h2, ih]

theorem clean_queue_loop_mem (ttl now : Nat) (q : List (Option String × Nat))
    (hsorted : q.Pairwise (fun a b => a.2 ≤ b.2)) (m : Option String) (T : Nat) :
    ((m, T) ∈ clean_queue_loop ttl now q ↔ (m, T) ∈ q ∧ now ≤ T + ttl) := by
  induction q with
  | nil => simp [clean_queue_loop]
  | cons hd tl ih =>
    obtain ⟨m0, t0⟩ := hd
    rw [List.pairwise_cons] at hsorted
    obtain ⟨hhead, htail⟩ := hsorted
    by_cases h : ttl < now - t0
    · rw [clean_queue_loop, if_pos h, ih htail]
      constructor
      · rintro ⟨hmem, hle⟩
        exact ⟨List.mem_cons_of_mem _ hmem, hle⟩
      · rintro ⟨hmem, hle⟩
        rcases List.mem_cons.mp hmem with heq | hmem2
        · exfalso
          have : T = t0 := congrArg Prod.snd heq
          omega
        · exact ⟨hmem2, hle⟩
    · rw [clean_queue_loop, if_neg h]
      constructor
      · intro hmem
        refine ⟨hmem, ?_⟩
        rcases List.mem_cons.mp hmem with heq | hmem2
        · have : T = t0 := congrArg Prod.snd heq
          omega
        · have ht0T : t0 ≤ T := hhead _ hmem2
          omega
      · exact fun hp => hp.1

/-- C4: `messages_flush` leaves the entire aggregator state unchanged: its
body only binds a local variable, so it is a no-op on the named map, the
anonymous queue and every other field. -/
theorem messages_flush_noop (s : Messages) : messages_flush s = s := rfl

/-- C3 counterexample: `render` does mutate the aggregator.  On a state
holding one expired anonymous message, the state after `render` differs
from the state before (the queue has been pruned by the `clean_queue` call
`render` itself performs). -/
theorem render_mutates_aggregator :
    (render 6 640 360 ⟨[], [], [(some "x", 0)], 5000⟩).1 ≠
      (⟨[], [], [(some "x", 0)], 5000⟩ : Messages) := by decide

/-- C3 (amended): `render` produces its draw commands without touching the
named-message map, but it is not pruning-free: its one state effect is
exactly the `clean_queue` call it performs itself at its start, so the
anonymous queue is pruned by `render` rather than only by a separate caller
step. -/
theorem render_state_effect (now width height : Nat) (s : Messages) :
    (render now width height s).1 = clean_queue now s ∧
      (render now width height s).1.messages_named = s.messages_named :=
  ⟨rfl, rfl⟩

/-- C2 counterexample: at exactly `now = T + ttl` (entry appended at time 0,
`message_display_time = 5000`, so `ttl = 5000 / 1000 = 5` seconds, pruned at
`now = 5`) the entry is retained by `clean_queue`, while the claim says it
is removed there. -/
theorem clean_queue_keeps_at_ttl :
    (clean_queue 5 ⟨[], [], [(some "x", 0)], 5000⟩).messages_queue =
      [(some "x", 0)] ∧ 0 + 5000 / 1000 ≤ 5 := by decide

/-- C2 (amended): for a queue whose timestamps are in arrival order
(non-decreasing, as produced by appending with a monotone clock), a
`clean_queue` call at time `now` leaves an anonymous message appended at
time `T` in the queue exactly when `now ≤ T + ttl`, and removes it exactly
when `now > T + ttl`, where `ttl = message_display_time / 1000`; in
particular at exactly `now = T + ttl` the message is still retained (the
code compares with strict `>`). -/
theorem clean_queue_boundary (s : Messages) (now : Nat) (m : Option String)
    (T : Nat) (hsorted : s.messages_queue.Pairwise (fun a b => a.2 ≤ b.2)) :
    ((m, T) ∈ (clean_queue now s).messages_queue ↔
      (m, T) ∈ s.messages_queue ∧ now ≤ T + s.message_display_time / 1000) :=
  clean_queue_loop_mem _ now s.messages_queue hsorted m T

/-- Closed instance of `clean_queue_boundary` at a concrete sorted queue:
at `now = 8` with `ttl = 5`, the entry from time 3 sits exactly on the
boundary and is retained. -/
theorem clean_queue_boundary_instance :
    ((some "x", 3) ∈
        (clean_queue 8 ⟨[], [], [(some "x", 3), (some "y", 4)], 5000⟩).messages_queue ↔
      (some "x", 3) ∈
          (⟨[], [], [(some "x", 3), (some "y", 4)], 5000⟩ : Messages).messages_queue ∧
        8 ≤ 3 + (⟨[], [], [(some "x", 3), (some "y", 4)], 5000⟩ : Messages).message_display_time / 1000) :=
  clean_queue_boundary ⟨[], [], [(some "x", 3), (some "y", 4)], 5000⟩ 8 (some "x") 3
    (by decide)

theorem messages_put_messages_named (msgs : List (Option String × Option String))
    (now : Nat) (s : Messages) :
    (messages_put msgs now s).messages_named = namedFold msgs s.messages_named := by
  induction msgs generalizing s with
  | nil => rfl
  | cons p rest ih =>
    obtain ⟨m, n⟩ := p
    cases n with
    | none =>
      show (messages_put rest now _).messages_named = namedFold rest _
      rw [ih]
    | some name =>
      show (messages_put rest now _).messages_named = namedFold rest _
      rw [ih]

theorem messages_put_message_structure (msgs : List (Option String × Option String))
    (now : Nat) (s : Messages) :
    (messages_put msgs now s).message_structure = s.message_structure := by
  induction msgs generalizing s with
  | nil => rfl
  | cons p rest ih =>
    obtain ⟨m, n⟩ := p
    cases n with
    | none => exact ih _
    | some name => exact ih _

theorem namedFold_dictGet (n : String) (msgs : List (Option String × Option String)) :
    ∀ d, dictGet n (namedFold msgs d) =
      match lastPutValue n msgs with
      | some v => some v
      | none => dictGet n d := by
  induction msgs with
  | nil => intro d; rfl
  | cons p rest ih =>
    intro d
    obtain ⟨m, nm⟩ := p
    have step : namedFold ((m, nm) :: rest) d =
        namedFold rest
          (match nm with
           | none => d
           | some name => dictInsert name m d) := by
      cases nm <;> rfl
    have hlast : lastPutValue n ((m, nm) :: rest) =
        match lastPutValue n rest with
        | some v => some v
        | none => if nm = some n then some m else none := rfl
    rw [step, ih, hlast]
    rcases hrest : lastPutValue n rest with _ | v
    · cases nm with
      | none => simp
      | some name =>
        by_cases hn : name = n
        · subst hn
          simp [dictGet_insert_self]
        · simp [hn, dictGet_insert_ne _ _ _ _ hn]
    · rfl

theorem namedFold_append (a b : List (Option String × Option String))
    (d : List (String × Option String)) :
    namedFold (a ++ b) d = namedFold b (namedFold a d) := by
  simp [namedFold, List.foldl_append]

theorem putBatches_messages_named
    (batches : List (List (Option String × Option String) × Nat)) (s : Messages) :
    (putBatches batches s).messages_named =
      namedFold (flattenBatches batches) s.messages_named := by
  induction batches generalizing s with
  | nil => rfl
  | cons b bs ih =>
    show (putBatches bs (messages_put b.1 b.2 s)).messages_named = _
    rw [ih, messages_put_messages_named]
    show _ = namedFold (b.1 ++ flattenBatches bs) s.messages_named
    rw [namedFold_append]

/-- C1: for every finite chronological sequence of `put`/`putAll` batches
and every name, the named map afterwards holds exactly the value carried by
the most recent put for that name in the flattened sequence; a name never
put keeps its prior binding, so no earlier value for a name is observable
after a later put for it. -/
theorem put_last_write_wins
    (batches : List (List (Option String × Option String) × Nat)) (s : Messages)
    (n : String) :
    (∀ v, lastPutValue n (flattenBatches batches) = some v →
        dictGet n (putBatches batches s).messages_named = some v) ∧
      (lastPutValue n (flattenBatches batches) = none →
        dictGet n (putBatches batches s).messages_named =
          dictGet n s.messages_named) := by
  constructor
  · intro v hv
    rw [putBatches_messages_named, namedFold_dictGet, hv]
  · intro hv
    rw [putBatches_messages_named, namedFold_dictGet, hv]

/-- Closed instance of `put_last_write_wins`: two successive batches both
writing name `"a"`; the snapshot holds the second value. -/
theorem put_last_write_wins_instance :
    dictGet "a"
        (putBatches
          [([(some "v1", some "a")], 0),
           ([(some "v2", some "a"), (some "q", none)], 1)]
          ⟨[], [], [], 5000⟩).messages_named = some (some "v2") :=
  (put_last_write_wins
      [([(some "v1", some "a")], 0), ([(some "v2", some "a"), (some "q", none)], 1)]
      ⟨[], [], [], 5000⟩ "a").1 (some "v2") (by decide)

theorem dictGet_insert_isSome (k0 k : String) (v : Option String)
    (d : List (String × Option String)) (h : (dictGet k d).isSome) :
    (dictGet k (dictInsert k0 v d)).isSome := by
  by_cases hk : k0 = k
  · subst hk
    rw [dictGet_insert_self]
    rfl
  · rw [dictGet_insert_ne _ _ _ _ hk]
    exact h

theorem namedFold_isSome (n : String) (msgs : List (Option String × Option String)) :
    ∀ d, (dictGet n d).isSome → (dictGet n (namedFold msgs d)).isSome := by
  induction msgs with
  | nil => intro d h; exact h
  | cons p rest ih =>
    intro d h
    obtain ⟨m, nm⟩ := p
    have step : namedFold ((m, nm) :: rest) d =
        namedFold rest
          (match nm with
           | none => d
           | some name => dictInsert name m d) := by
      cases nm <;> rfl
    rw [step]
    cases nm with
    | none => exact ih d h
    | some name => exact ih _ (dictGet_insert_isSome name n m d h)

theorem applyOp_preserves_named (n : String) (op : AggregatorOp) (s : Messages)
    (h : (dictGet n s.messages_named).isSome) :
    (dictGet n (applyOp op s).messages_named).isSome := by
  cases op with
  | putAll msgs now =>
    show (dictGet n (messages_put msgs now s).messages_named).isSome
    rw [messages_put_messages_named]
    exact namedFold_isSome n msgs _ h
  | putOne m nm now =>
    show (dictGet n (messages_put [(m, nm)] now s).messages_named).isSome
    rw [messages_put_messages_named]
    exact namedFold_isSome n [(m, nm)] _ h
  | flush => exact h
  | clean now => exact h
  | draw now w hh => exact h

/-- C10: the named map's key set grows monotonically over the process
lifetime: once a name is bound in `messages_named`, every further sequence
of aggregator operations (`messages_put`, `message_put`, `messages_flush`,
`clean_queue`, `render`) leaves it bound to some value (`clean_queue`
shrinks only the anonymous queue and `messages_flush` changes nothing). -/
theorem named_keys_monotone (ops : List AggregatorOp) (s : Messages) (n : String)
    (h : (dictGet n s.messages_named).isSome) :
    (dictGet n (applyOps ops s).messages_named).isSome := by
  induction ops generalizing s with
  | nil => exact h
  | cons op rest ih =>
    exact ih (applyOp op s) (applyOp_preserves_named n op s h)

/-- Closed instance of `named_keys_monotone`: the binding for `"a"` survives
a flush, a prune and a render. -/
theorem named_keys_monotone_instance :
    (dictGet "a"
        (applyOps [.flush, .clean 10, .draw 10 640 360]
          ⟨[], [("a", some "x")], [], 5000⟩).messages_named).isSome :=
  named_keys_monotone [.flush, .clean 10, .draw 10 640 360]
    ⟨[], [("a", some "x")], [], 5000⟩ "a" (by decide)

/-- C6: an auto-repeat event produces zero controller calls; a
non-auto-repeat press of a mapped key runs exactly its mapped action with
axis value 1 and a release runs it with axis value 0; unmapped keys produce
nothing; and a W press followed by its release yields exactly the two calls
`send_vel(x=1)` then `send_vel(x=0)`. -/
theorem key_dispatch
    : (∀ k c, keyPressEvent k true c = [] ∧ keyReleaseEvent k true c = [])
      ∧ (∀ k f, keymap k = some f →
          keyPressEvent k false false = f 1 ∧ keyReleaseEvent k false false = f 0)
      ∧ (∀ k, keymap k = none →
          keyPressEvent k false false = [] ∧ keyReleaseEvent k false false = [])
      ∧ keyPressEvent .key_W false false ++ keyReleaseEvent .key_W false false =
          [.send_vel (some 1) none none none, .send_vel (some 0) none none none] := by
  refine ⟨?_, ?_, ?_, rfl⟩
  · intro k c
    exact ⟨rfl, rfl⟩
  · intro k f h
    constructor
    · show (if false || false then [] else match keymap k with
        | some f => f 1
        | none => []) = f 1
      rw [h]
      rfl
    · show (if false || false then [] else match keymap k with
        | some f => f 0
        | none => []) = f 0
      rw [h]
      rfl
  · intro k h
    constructor
    · show (if false || false then [] else match keymap k with
        | some f => f 1
        | none => []) = []
      rw [h]
      rfl
    · show (if false || false then [] else match keymap k with
        | some f => f 0
        | none => []) = []
      rw [h]
      rfl

/-- Closed instance of `key_dispatch`: the mapped-key clause at the W key. -/
theorem key_dispatch_instance :
    keyPressEvent .key_W false false =
        [ControllerCall.send_vel (some 1) none none none] ∧
      keyReleaseEvent .key_W false false =
        [ControllerCall.send_vel (some 0) none none none] :=
  key_dispatch.2.1 .key_W (fun ax => [.send_vel (some ax) none none none]) rfl

theorem publishAll_cons (swap : Bool) (f : RosImage) (frames : List RosImage)
    (slot : Option QImageModel) :
    publishAll swap (f :: frames) slot =
      publishAll swap frames (on_video_update swap f slot) := rfl

theorem publishAll_eq_last (swap : Bool) :
    ∀ (frames : List RosImage) (slot : Option QImageModel) (h : frames ≠ []),
      publishAll swap frames slot = some (mkQImage swap (frames.getLast h))
  | [], _, h => absurd rfl h
  | [f], _, _ => rfl
  | f :: g :: rest, slot, _ => by
    rw [publishAll_cons]
    rw [publishAll_eq_last swap (g :: rest) (on_video_update swap f slot)
      (List.cons_ne_nil g rest)]
    rfl

/-- C7: after any nonempty sequence of frame publications, the consumer read
of the single slot returns exactly the last published frame; the read does
not remove it (the slot is unchanged and a second read returns the same
frame); with no publication ever, the read returns none. -/
theorem frame_slot_latest (swap : Bool) (frames : List RosImage)
    (slot : Option QImageModel) (h : frames ≠ []) :
    (takeLatest (publishAll swap frames slot)).1 =
        some (mkQImage swap (frames.getLast h)) ∧
      (takeLatest (publishAll swap frames slot)).2 = publishAll swap frames slot ∧
      (takeLatest (takeLatest (publishAll swap frames slot)).2).1 =
        (takeLatest (publishAll swap frames slot)).1 ∧
      (takeLatest (none : Option QImageModel)).1 = none :=
  ⟨publishAll_eq_last swap frames slot h, rfl, rfl, rfl⟩

/-- Closed instance of `frame_slot_latest`: two publications; the read
returns the second frame and leaves the slot as is. -/
theorem frame_slot_latest_instance :
    (takeLatest (publishAll false [⟨[0], 1, 1⟩, ⟨[9], 1, 1⟩] none)).1 =
        some (mkQImage false ⟨[9], 1, 1⟩) ∧
      (takeLatest (publishAll false [⟨[0], 1, 1⟩, ⟨[9], 1, 1⟩] none)).2 =
        publishAll false [⟨[0], 1, 1⟩, ⟨[9], 1, 1⟩] none ∧
      (takeLatest (takeLatest (publishAll false [⟨[0], 1, 1⟩, ⟨[9], 1, 1⟩] none)).2).1 =
        (takeLatest (publishAll false [⟨[0], 1, 1⟩, ⟨[9], 1, 1⟩] none)).1 ∧
      (takeLatest (none : Option QImageModel)).1 = none :=
  frame_slot_latest false [⟨[0], 1, 1⟩, ⟨[9], 1, 1⟩] none (by decide)

/-- C8: on a redraw tick, an offline controller or a never-filled frame slot
makes the compositor use the fixed 640×360 solid-colour placeholder; the
latest real frame is used exactly when the controller is online and a frame
exists. -/
theorem redraw_placeholder
    : (∀ slot, on_redraw_surface false slot = .placeholder 640 360 50 50 50)
      ∧ (∀ o, on_redraw_surface o none = .placeholder 640 360 50 50 50)
      ∧ (∀ image, on_redraw_surface true (some image) = .fromFrame image) := by
  refine ⟨?_, ?_, ?_⟩
  · intro slot
    cases slot <;> rfl
  · intro o
    cases o <;> rfl
  · intro image
    rfl

theorem takeWhile_all_sat {α : Type} (p : α → Bool) :
    ∀ l : List α, (l.takeWhile p).all p = true := by
  intro l
  induction l with
  | nil => rfl
  | cons a l ih =>
    cases h : p a with
    | true => simp [List.takeWhile, h, ih]
    | false => simp [List.takeWhile, h]

theorem takeWhile_append_dropWhile_eq {α : Type} (p : α → Bool) :
    ∀ l : List α, l.takeWhile p ++ l.dropWhile p = l := by
  intro l
  induction l with
  | nil => rfl
  | cons a l ih =>
    cases h : p a with
    | true => simp [List.takeWhile, List.dropWhile, h, ih]
    | false => simp [List.takeWhile, List.dropWhile, h]

theorem takeWhile_append_stop {α : Type} (p : α → Bool) (c : α) (b : List α)
    (hc : p c = false) :
    ∀ a : List α, a.all p = true → (a ++ c :: b).takeWhile p = a := by
  intro a
  induction a with
  | nil =>
    intro _
    simp [List.takeWhile, hc]
  | cons x a ih =>
    intro hall
    rw [List.all_cons, Bool.and_eq_true] at hall
    simp [List.takeWhile, hall.1, ih hall.2]

theorem dropWhile_append_stop {α : Type} (p : α → Bool) (c : α) (b : List α)
    (hc : p c = false) :
    ∀ a : List α, a.all p = true → (a ++ c :: b).dropWhile p = c :: b := by
  intro a
  induction a with
  | nil =>
    intro _
    simp [List.dropWhile, hc]
  | cons x a ih =>
    intro hall
    rw [List.all_cons, Bool.and_eq_true] at hall
    simp [List.dropWhile, hall.1, ih hall.2]

theorem isNameChar_colon : isNameChar ':' = false := by decide

/-- The regex decomposition is exactly what `matchLine` reports: a name is
returned iff the line (the input up to the first newline) splits as a
nonempty all-name-character prefix, the literal `"::"`, and the message. -/
theorem matchLine_some_iff (l : List Char) (n m : List Char) :
    matchLine l = (some n, m) ↔
      n ≠ [] ∧ n.all isNameChar = true ∧
        l.takeWhile (fun c => c != '\n') = n ++ ':' :: ':' :: m := by
  constructor
  · intro h
    rw [matchLine] at h
    by_cases h1 : (l.takeWhile (fun c => c != '\n')).takeWhile isNameChar = []
    · rw [if_pos h1] at h
      exact absurd (congrArg Prod.fst h) (by simp)
    · rw [if_neg h1] at h
      by_cases h2 : ((l.takeWhile (fun c => c != '\n')).dropWhile isNameChar).take 2 =
          [':', ':']
      · rw [if_pos h2] at h
        have hn : n = (l.takeWhile (fun c => c != '\n')).takeWhile isNameChar := by
          have := congrArg Prod.fst h
          simpa using this.symm
        have hm : m = ((l.takeWhile (fun c => c != '\n')).dropWhile isNameChar).drop 2 := by
          have := congrArg Prod.snd h
          simpa using this.symm
        refine ⟨by rw [hn]; exact h1, by rw [hn]; exact takeWhile_all_sat _ _, ?_⟩
        rw [hn, hm]
        have hsplit := takeWhile_append_dropWhile_eq isNameChar
          (l.takeWhile (fun c => c != '\n'))
        have hrest : (l.takeWhile (fun c => c != '\n')).dropWhile isNameChar =
            ':' :: ':' :: ((l.takeWhile (fun c => c != '\n')).dropWhile isNameChar).drop 2 := by
          have := List.take_append_drop 2
            ((l.takeWhile (fun c => c != '\n')).dropWhile isNameChar)
          rw [h2] at this
          exact this.symm
        conv_lhs => rw [← hsplit, hrest]
      · rw [if_neg h2] at h
        exact absurd (congrArg Prod.fst h) (by simp)
  · rintro ⟨hne, hall, hsplit⟩
    have htw : (l.takeWhile (fun c => c != '\n')).takeWhile isNameChar = n := by
      rw [hsplit]
      exact takeWhile_append_stop isNameChar ':' (':' :: m) isNameChar_colon n hall
    have hdw : (l.takeWhile (fun c => c != '\n')).dropWhile isNameChar =
        ':' :: ':' :: m := by
      rw [hsplit]
      exact dropWhile_append_stop isNameChar ':' (':' :: m) isNameChar_colon n hall
    rw [matchLine, htw, hdw, if_neg hne]
    simp

/-- When no name is found, `matchLine` hands the whole line over as the
anonymous message. -/
theorem matchLine_none (l : List Char) (m : List Char)
    (h : matchLine l = (none, m)) :
    m = l.takeWhile (fun c => c != '\n') := by
  rw [matchLine] at h
  by_cases h1 : (l.takeWhile (fun c => c != '\n')).takeWhile isNameChar = []
  · rw [if_pos h1] at h
    exact (congrArg Prod.snd h).symm
  · rw [if_neg h1] at h
    by_cases h2 : ((l.takeWhile (fun c => c != '\n')).dropWhile isNameChar).take 2 =
        [':', ':']
    · rw [if_pos h2] at h
      exact absurd (congrArg Prod.fst h) (by simp)
    · rw [if_neg h2] at h
      exact (congrArg Prod.snd h).symm

theorem message_put_named_eq (m : Option String) (k : String) (now : Nat)
    (s : Messages) :
    message_put m (some k) now s =
      { s with messages_named := dictInsert k m s.messages_named } := rfl

theorem message_put_anon_eq (m : Option String) (now : Nat) (s : Messages) :
    message_put m none now s =
      { s with messages_queue := s.messages_queue ++ [(m, now)] } := rfl

/-- C5 counterexample: a topic string containing a newline is not stored
whole.  `"a\nb"` has no leading `name::` prefix, yet only `"a"` (the part
before the newline, where the regex's `.*` stops) is appended to the
anonymous queue, not the entire string. -/
theorem ui_message_newline_truncated :
    (on_ui_request "a\nb".toList 7 ⟨[], [], [], 5000⟩).messages_queue =
        [(some "a", 7)] ∧ ("a" : String) ≠ "a\nb" := by decide

/-- C5 (amended): the `/ui/message` handler applies the documented rule to
the part of the input before its first newline (`.` in the template does not
cross newlines): if that line starts with a nonempty run of `[a-zA-Z0-9_-]`
characters immediately followed by `"::"`, the run becomes the name and the
rest of the line the named slot's new value; otherwise the whole line is
appended as an anonymous timed message.  In particular
`"not::a::valid name::rest"` updates the named slot `"not"` with the value
`"a::valid name::rest"`. -/
theorem ui_message_routing (l : List Char) (now : Nat) (s : Messages) :
    (∀ n m : List Char, n ≠ [] → n.all isNameChar = true →
        l.takeWhile (fun c => c != '\n') = n ++ ':' :: ':' :: m →
        on_ui_request l now s =
          { s with messages_named :=
              dictInsert (String.mk n) (some (String.mk m)) s.messages_named }) ∧
      ((∀ n m : List Char, n ≠ [] → n.all isNameChar = true →
          l.takeWhile (fun c => c != '\n') ≠ n ++ ':' :: ':' :: m) →
        on_ui_request l now s =
          { s with messages_queue :=
              s.messages_queue ++
                [(some (String.mk (l.takeWhile (fun c => c != '\n'))), now)] }) ∧
      on_ui_request "not::a::valid name::rest".toList now s =
        { s with messages_named :=
            dictInsert "not" (some "a::valid name::rest") s.messages_named } := by
  have hnamed : ∀ n m : List Char, n ≠ [] → n.all isNameChar = true →
      l.takeWhile (fun c => c != '\n') = n ++ ':' :: ':' :: m →
      on_ui_request l now s =
        { s with messages_named :=
            dictInsert (String.mk n) (some (String.mk m)) s.messages_named } := by
    intro n m hne hall hsplit
    have hm : matchLine l = (some n, m) :=
      (matchLine_some_iff l n m).mpr ⟨hne, hall, hsplit⟩
    rw [on_ui_request, hm]
    rfl
  refine ⟨hnamed, ?_, ?_⟩
  · intro hno
    rcases hr : matchLine l with ⟨nm, msg⟩
    cases nm with
    | some n =>
      obtain ⟨hne, hall, hsplit⟩ := (matchLine_some_iff l n msg).mp hr
      exact absurd hsplit (hno n msg hne hall)
    | none =>
      have hmsg : msg = l.takeWhile (fun c => c != '\n') := matchLine_none l msg hr
      rw [on_ui_request, hr, hmsg]
      rfl
  · have hm : matchLine "not::a::valid name::rest".toList =
        (some "not".toList, "a::valid name::rest".toList) := by decide
    rw [on_ui_request, hm]
    rfl

/-- Closed instance of `ui_message_routing`: the named clause applied to the
`"not::a::valid name::rest"` input from an empty aggregator. -/
theorem ui_message_routing_instance :
    on_ui_request "not::a::valid name::rest".toList 2 ⟨[], [], [], 5000⟩ =
      ⟨[], [("not", some "a::valid name::rest")], [], 5000⟩ :=
  (ui_message_routing "not::a::valid name::rest".toList 2 ⟨[], [], [], 5000⟩).1
    "not".toList "a::valid name::rest".toList (by decide) (by decide) (by decide)

theorem drawNames_fst (named : List (String × Option String)) (x : Int)
    (ns : List String) : ∀ y : Nat, (drawNames named x y ns).1 = y + 15 * ns.length := by
  induction ns with
  | nil =>
    intro y
    simp [drawNames]
  | cons n rest ih =>
    intro y
    show (drawNames named x (y + 15) rest).1 = _
    rw [ih, List.length_cons]
    ring

theorem renderEntry_fst (named : List (String × Option String)) (height : Nat)
    (e : Entry) (x : Int) (y : Nat) :
    (renderEntry named height e (x, y)).1 =
      if height * 9 / 10 < y + 15 * (entryNames e).length + 5
      then (x + column_width, height * 5 / 100)
      else (x, y + 15 * (entryNames e).length + 5) := by
  simp only [renderEntry]
  rw [drawNames_fst, apply_ite Prod.fst]

theorem abGrid_layout_tall (named : List (String × Option String))
    (width height : Nat)
    (htall : height * 5 / 100 + 60 ≤ height * 9 / 10) :
    (renderStructure named height abGrid
        (((width * 5 / 100 : Nat) : Int), height * 5 / 100)).2 =
      [(((width * 5 / 100 : Nat) : Int), height * 5 / 100, renderLine named "a"),
       (((width * 5 / 100 : Nat) : Int), height * 5 / 100 + 25, renderLine named "b"),
       (((width * 5 / 100 : Nat) : Int), height * 5 / 100 + 40, renderLine named "c")] := by
  set x0 : Int := ((width * 5 / 100 : Nat) : Int) with hx0
  set y0 : Nat := height * 5 / 100 with hy0
  have ha : renderEntry named height (.single "a") (x0, y0) =
      ((x0, y0 + 20), [(x0, y0, renderLine named "a")]) := by
    simp only [renderEntry, entryNames, drawNames]
    rw [if_neg (by omega : ¬ (height * 9 / 10 < y0 + 15 + 5))]
  have hb : renderEntry named height .blank (x0, y0 + 20) =
      ((x0, y0 + 25), []) := by
    simp only [renderEntry, entryNames, drawNames]
    rw [if_neg (by omega : ¬ (height * 9 / 10 < y0 + 20 + 5))]
  have hc : renderEntry named height (.group ["b", "c"]) (x0, y0 + 25) =
      ((x0, y0 + 60),
        [(x0, y0 + 25, renderLine named "b"), (x0, y0 + 40, renderLine named "c")]) := by
    simp only [renderEntry, entryNames, drawNames]
    rw [if_neg (by omega : ¬ (height * 9 / 10 < y0 + 25 + 15 + 15 + 5))]
  show (renderStructure named height
      [Entry.single "a", Entry.blank, Entry.group ["b", "c"]] (x0, y0)).2 = _
  simp only [renderStructure, ha, hb, hc, List.cons_append, List.nil_append,
    List.append_nil]

/-- C9: the named-message walk advances the vertical cursor 15 per rendered
line plus 5 after each group, and wraps — resetting y to 5% of image height
and advancing x by `column_width` — exactly when the cursor exceeds 90% of
the image height after a group; for the structure `["a", None, ["b","c"]]`
on a tall-enough image the rows come out top-to-bottom as `a`, a blank gap,
`b`, `c` in one column; and on a short image whose cursor exceeds 90% height
after the first group, the two-line group lands in a new column. -/
theorem compositor_layout :
    (∀ (named : List (String × Option String)) (height : Nat) (e : Entry)
        (x : Int) (y : Nat),
      (renderEntry named height e (x, y)).1 =
        if height * 9 / 10 < y + 15 * (entryNames e).length + 5
        then (x + column_width, height * 5 / 100)
        else (x, y + 15 * (entryNames e).length + 5)) ∧
      (∀ (named : List (String × Option String)) (width height : Nat),
        height * 5 / 100 + 60 ≤ height * 9 / 10 →
        (renderStructure named height abGrid
            (((width * 5 / 100 : Nat) : Int), height * 5 / 100)).2 =
          [(((width * 5 / 100 : Nat) : Int), height * 5 / 100, renderLine named "a"),
           (((width * 5 / 100 : Nat) : Int), height * 5 / 100 + 25, renderLine named "b"),
           (((width * 5 / 100 : Nat) : Int), height * 5 / 100 + 40, renderLine named "c")]) ∧
      (renderStructure [] 20 abGrid (20, 1)).2 =
        [(20, 1, "a: -"), (270, 6, "b: -"), (270, 21, "c: -")] :=
  ⟨renderEntry_fst, abGrid_layout_tall, by decide⟩

/-- Closed instance of `compositor_layout`: the tall-image clause at a
640×400 image with slot `"a"` holding `"va"`. -/
theorem compositor_layout_instance :
    (renderStructure [("a", some "va")] 400 abGrid (32, 20)).2 =
      [((32 : Int), 20, "a: va"), ((32 : Int), 45, "b: -"), ((32 : Int), 60, "c: -")] :=
  compositor_layout.2.1 [("a", some "va")] 640 400 (by decide)

end ArdroneUI
